import Mathlib

/-!
Shallow embedding of the SecureDrop source-interface core
(`src/securedrop/source_app/main.py`) and the pending-account reaper
(`src/securedrop/management/sources.py`), with theorems settling the
specification claims about submission intake, account creation, the
tab-to-codename session binding, reply soft-deletion, and reaping.
-/

namespace SecureDrop

/-- An uploaded file (`request.files['fh']`): werkzeug FileStorage with a
client-supplied filename and a content stream. -/
structure FileUpload where
  filename : String
  stream : String
deriving DecidableEq, Repr

/-- Kind of a stored content unit: a typed message or an uploaded document. -/
inductive SubKind where
  | msg
  | doc
deriving DecidableEq, Repr

/-- A physical submission filename as built by `storage.save_message_submission`
/ `storage.save_file_submission`: it encodes the sequence number (the value of
`interaction_count` at assignment time), the kind, and the journalist
designation. -/
structure Fname where
  seq : Nat
  kind : SubKind
  journalist : String
deriving DecidableEq, Repr

/-- `storage.save_message_submission(filesystem_id, count, journalist_filename, msg)`:
returns the filename built from the post-increment counter value. -/
def save_message_submission (count : Nat) (journalist_filename : String)
    (_msg : String) : Fname :=
  ⟨count, SubKind.msg, journalist_filename⟩

/-- `storage.save_file_submission(filesystem_id, count, journalist_filename, filename, stream)`:
returns the filename built from the post-increment counter value. -/
def save_file_submission (count : Nat) (journalist_filename : String)
    (_fh : FileUpload) : Fname :=
  ⟨count, SubKind.doc, journalist_filename⟩

/-- A `Source` row (`models.Source`): identity of one anonymous party. -/
structure Source where
  id : Nat
  filesystem_id : String
  journalist_filename : String
  pending : Bool
  interaction_count : Nat
  last_updated : Nat
deriving DecidableEq, Repr

/-- Modelled from the spec: the `Source` constructor lives in `models.py`,
which is not part of the provided sources; §4.2 of the spec states that
`createAccount` "constructs a Source with `pending=true`,
`interaction_count=0`". -/
def newSource (id : Nat) (filesystem_id journalist_filename : String) : Source :=
  { id := id
    filesystem_id := filesystem_id
    journalist_filename := journalist_filename
    pending := true
    interaction_count := 0
    last_updated := 0 }

/-- A `Submission` row: belongs to one source, holds the assigned filename. -/
structure Submission where
  source_id : Nat
  fname : Fname
deriving DecidableEq, Repr

/-- A `Reply` row: belongs to one source; `deleted_by_source` is the
soft-deletion flag. -/
structure Reply where
  id : Nat
  source_id : Nat
  filename : String
  deleted_by_source : Bool
deriving DecidableEq, Repr

/-- The acknowledgment text chosen by `submit` after a successful intake. -/
inductive FlashKind where
  | firstSubmission
  | gotMessage
  | gotDocument
  | gotMessageAndDocument
deriving DecidableEq, Repr

/-- Result of a successful `submit` call: the updated source row, the list of
filenames created (in creation order), and the chosen acknowledgment. -/
structure SubmitOk where
  source : Source
  fnames : List Fname
  flashKind : FlashKind
deriving DecidableEq, Repr

/-- The `submit` view (`main.py` lines 158-245), restricted to one source row.
Mirrors the code: `fh` is read from the request files only when
`allow_document_uploads` holds; an empty submission (no message text and no
file) is rejected with `none`; otherwise the counter is incremented once per
present unit, message first, each filename using the post-increment value;
finally `pending` is cleared and `last_updated` set.  `now` stands for
`datetime.utcnow()`. -/
def submit (allow_document_uploads : Bool) (src : Source) (msg : String)
    (files_fh : Option FileUpload) (now : Nat) : Option SubmitOk :=
  let fh : Option FileUpload := if allow_document_uploads then files_fh else none
  if msg = "" ∧ fh = none then
    none
  else
    let journalist_filename := src.journalist_filename
    let first_submission := src.interaction_count = 0
    let count1 := if msg ≠ "" then src.interaction_count + 1 else src.interaction_count
    let fnames1 : List Fname :=
      if msg ≠ "" then [save_message_submission count1 journalist_filename msg] else []
    let count2 := match fh with
      | some _ => count1 + 1
      | none => count1
    let fnames2 : List Fname := match fh with
      | some f => fnames1 ++ [save_file_submission count2 journalist_filename f]
      | none => fnames1
    let flashKind :=
      if first_submission then FlashKind.firstSubmission
      else if msg ≠ "" ∧ fh = none then FlashKind.gotMessage
      else if fh ≠ none ∧ msg = "" then FlashKind.gotDocument
      else FlashKind.gotMessageAndDocument
    some { source := { src with pending := false, interaction_count := count2,
                                last_updated := now }
           fnames := fnames2
           flashKind := flashKind }

/-- Number of present content units in a `submit` call, after the
document-uploads gate: 1 for a non-empty message, 1 for an accepted file. -/
def numUnits (allow_document_uploads : Bool) (msg : String)
    (files_fh : Option FileUpload) : Nat :=
  (if msg ≠ "" then 1 else 0) +
    (if allow_document_uploads ∧ files_fh ≠ none then 1 else 0)

/-- Largest sequence number encoded in a list of created filenames. -/
def maxSeq (fnames : List Fname) : Nat :=
  (fnames.map Fname.seq).foldr max 0

/-- The Flask session of one browsing session.  Every field mirrors a session
key used by `main.py`; `Option` distinguishes an absent key from a present
one (Python `del` / `KeyError` semantics).  `flashes` models the flashed
notifications (`flash(...)`). -/
structure Session where
  codenames : Option (List (String × String))
  codename : Option String
  logged_in : Option Bool
  new_user : Option Bool
  token : Option String
  flashes : List String
deriving DecidableEq, Repr

/-- Python dict assignment `m[k] = v`: overwrite the entry when the key is
present, append it otherwise. -/
def dictSet (m : List (String × String)) (k v : String) : List (String × String) :=
  if m.any (fun p => p.1 == k) then
    m.map (fun p => if p.1 == k then (k, v) else p)
  else m ++ [(k, v)]

/-- Python dict read `m[k]`, as an `Option` (a missing key raises `KeyError`). -/
def dictGet (m : List (String × String)) (k : String) : Option String :=
  (m.find? (fun p => p.1 == k)).map Prod.snd

/-- `session['codenames'][tab_id]` as done by `create`: `none` when either the
`codenames` key or the tab entry is absent (`KeyError`). -/
def resolve (sess : Session) (tab_id : String) : Option String :=
  match sess.codenames with
  | none => none
  | some m => dictGet m tab_id

/-- The `generate` view (`main.py` lines 34-55).  The `logged_in()` helper is
in `source_app/utils.py` (not under the provided sources); modelled from the
spec (§6: `GET /generate` "requires not-already-logged-in"), as the session's
logged-in flag.  When not logged in: bind `tab_id ↦ codename` into the
session `codenames` dict (created empty if absent) and set `new_user`. -/
def generate (sess : Session) (tab_id codename : String) : Session :=
  if sess.logged_in.getD false then
    { sess with flashes := sess.flashes ++ ["redirected-already-logged-in"] }
  else
    let codenames := sess.codenames.getD []
    { sess with codenames := some (dictSet codenames tab_id codename),
                new_user := some true }

/-- The persistent store: `Source`, `Submission` and `Reply` rows, plus the
set of filesystem ids holding GPG key material (the encryption collaborator's
state), and the next free primary key for `Source`. -/
structure Store where
  sources : List Source
  submissions : List Submission
  replies : List Reply
  keys : List String
  next_id : Nat
deriving DecidableEq, Repr

/-- Outcome of the `create` view. -/
inductive CreateResult where
  | alreadyLoggedIn
  | staleTab
  | valueError
  | duplicate
  | ok
deriving DecidableEq, Repr

/-- The `create` view (`main.py` lines 57-106).  If the session is logged in,
only a notification is flashed.  Otherwise the codename is resolved from the
tab mapping (a missing entry raises `KeyError`: `staleTab`, nothing saved),
the codename is put in the session and the whole mapping deleted, the
`Source` constructor may raise `ValueError` (`ctorOk = false`), and the
insert commits unless the derived `filesystem_id` already exists (the unique
constraint on `Source.filesystem_id` is declared in `models.py`, not under
the provided sources; modelled from the spec: "duplicate `filesystem_id`").
On `IntegrityError` the transaction is rolled back, `session['codename']`
and `session['logged_in']` are deleted, and the request aborts with 500. -/
def create (hashCodename : String → String) (displayId : String) (ctorOk : Bool)
    (σ : Store) (sess : Session) (tab_id : String) :
    Store × Session × CreateResult :=
  if sess.logged_in.getD false then
    (σ, { sess with flashes := sess.flashes ++ ["already-logged-in-verify-codename"] },
     CreateResult.alreadyLoggedIn)
  else
    match resolve sess tab_id with
    | none => (σ, sess, CreateResult.staleTab)
    | some codename =>
      let sess1 := { sess with codename := some codename, codenames := none }
      let filesystem_id := hashCodename codename
      if ctorOk = false then
        (σ, { sess1 with flashes := sess1.flashes ++ ["temporary-problem-try-again"] },
         CreateResult.valueError)
      else if σ.sources.any (fun s => s.filesystem_id == filesystem_id) then
        (σ, { sess1 with codename := none, logged_in := none },
         CreateResult.duplicate)
      else
        ({ σ with sources := σ.sources ++ [newSource σ.next_id filesystem_id displayId],
                  next_id := σ.next_id + 1 },
         { sess1 with logged_in := some true },
         CreateResult.ok)

/-- The database effect of the `submit` view on the store: look up the
logged-in source row, run the intake, replace the source row and append one
`Submission` row per created filename (`main.py` lines 230-238). -/
def storeSubmit (σ : Store) (allow_document_uploads : Bool) (sid : Nat)
    (msg : String) (files_fh : Option FileUpload) (now : Nat) : Store :=
  match σ.sources.find? (fun s => s.id == sid) with
  | none => σ
  | some src =>
    match submit allow_document_uploads src msg files_fh now with
    | none => σ
    | some out =>
      { σ with
        sources := σ.sources.map (fun s => if s.id == src.id then out.source else s),
        submissions := σ.submissions ++ out.fnames.map (fun fn => ⟨src.id, fn⟩) }

/-- The `lookup` view's reply listing (`main.py` lines 110-156): all replies
of the source with `deleted_by_source == False`, minus those whose backing
file is missing or undecodable (`readable`), sorted by file modification
time (`mtime`) descending. -/
def lookup (σ : Store) (sid : Nat) (readable : Reply → Bool)
    (mtime : Reply → Nat) : List Reply :=
  let source_inbox := σ.replies.filter
    (fun r => r.source_id == sid && r.deleted_by_source == false)
  let replies := source_inbox.filter readable
  replies.insertionSort (fun a b => mtime b ≤ mtime a)

/-- The `lookup` view's lazy key provisioning (`main.py` lines 139-141): if
the source has no reply-encryption key yet, one is generated. -/
def storeLookup (σ : Store) (filesystem_id : String) : Store :=
  if σ.keys.any (fun k => k == filesystem_id) then σ
  else { σ with keys := σ.keys ++ [filesystem_id] }

/-- Setting `reply.deleted_by_source = True` on the rows matched by the
`delete` view's query. -/
def markDeleted (reply_filename : String) (sid : Nat) (r : Reply) : Reply :=
  if r.filename == reply_filename && r.source_id == sid then
    { r with deleted_by_source := true }
  else r

/-- The `delete` view (`main.py` lines 247-264): the query filters by
`filename` and `source_id` only (ownership), `get_one_or_else` (defined in
`models.py`, not under the provided sources; modelled from the spec §4.4:
the ownership check is mandatory and its failure a hard error) aborts unless
exactly one row matches, and the matching row's `deleted_by_source` flag is
set.  The `Bool` is `true` when the view succeeded (flashed "Reply
deleted"), `false` when it aborted. -/
def delete (σ : Store) (sid : Nat) (reply_filename : String) : Store × Bool :=
  match σ.replies.filter (fun r => r.filename == reply_filename && r.source_id == sid) with
  | [_] =>
    ({ σ with replies := σ.replies.map (markDeleted reply_filename sid) }, true)
  | _ => (σ, false)

/-- The `batch_delete` view (`main.py` lines 266-282): mark every non-deleted
reply of the source as deleted; when there are none, only log and redirect. -/
def batch_delete (σ : Store) (sid : Nat) : Store :=
  let replies := σ.replies.filter
    (fun r => r.source_id == sid && r.deleted_by_source == false)
  if replies.length = 0 then σ
  else
    { σ with replies := σ.replies.map (fun r =>
        if r.source_id == sid && r.deleted_by_source == false then
          { r with deleted_by_source := true }
        else r) }

/-- `find_pending_sources` (`management/sources.py` lines 32-44): all sources
with `pending=True`, ordered by `id` descending, skipping the first
`keep_most_recent`. -/
def find_pending_sources (keep_most_recent : Nat) (σ : Store) : List Source :=
  ((σ.sources.filter (fun s => s.pending)).insertionSort
    (fun a b => b.id ≤ a.id)).drop keep_most_recent

/-- `EncryptionManager.delete_source_key_pair` wrapped in the reaper's
`try/except GpgKeyNotFoundError: pass` (`management/sources.py` lines 21-24):
remove the key material when present; its absence raises
`GpgKeyNotFoundError`, which is swallowed, so the control flow is identical
and only the key set can change. -/
def delete_source_key_pair (σ : Store) (filesystem_id : String) : Store :=
  { σ with keys := σ.keys.filter (fun k => k != filesystem_id) }

/-- `delete_pending_source` (`management/sources.py` lines 47-58): re-check
`pending`, then delete the row and commit; any exception during
delete/commit (`commitOk = false`) is caught, the transaction rolled back
and an error printed (the returned `Bool`). -/
def delete_pending_source (commitOk : Bool) (σ : Store) (src : Source) :
    Store × Bool :=
  if src.pending then
    if commitOk then
      ({ σ with sources := σ.sources.filter (fun s => s.id != src.id) }, false)
    else (σ, true)
  else (σ, false)

/-- The candidate loop of `remove_pending_sources` (`management/sources.py`
lines 20-26): for the candidate at position `i`, delete its key material
(absence swallowed), then `delete_pending_source` with that candidate's
commit outcome `commitOk i`.  Returns the final store and the number of
errors printed. -/
def reapLoop (commitOk : Nat → Bool) : Nat → Store → List Source → Store × Nat
  | _, σ, [] => (σ, 0)
  | i, σ, src :: rest =>
    let σ1 := delete_source_key_pair σ src.filesystem_id
    let step := delete_pending_source (commitOk i) σ1 src
    let res := reapLoop commitOk (i + 1) step.1 rest
    (res.1, (if step.2 then 1 else 0) + res.2)

/-- Result of one reaper run: final store, the two printed counts
(`Found {len(sources)}` and `Deleted {len(sources)}` — both are
`len(sources)` in the code), the function's return value (the process exit
status), and the number of per-candidate errors printed. -/
structure ReapResult where
  store : Store
  found_printed : Nat
  deleted_printed : Nat
  exit_code : Nat
  errors : Nat
deriving DecidableEq, Repr

/-- `remove_pending_sources` (`management/sources.py` lines 10-29):
find the candidates, loop over them, print the counts, return 0. -/
def remove_pending_sources (keep_most_recent : Nat) (commitOk : Nat → Bool)
    (σ : Store) : ReapResult :=
  let sources := find_pending_sources keep_most_recent σ
  let res := reapLoop commitOk 0 σ sources
  ⟨res.1, sources.length, sources.length, 0, res.2⟩

/-- `true` exactly when the reaper run starting at candidate index `i` on
the given candidate list removes the row of source `s`: some candidate is
still pending, its commit succeeds, and it has `s`'s primary key. -/
def reapDeletes (commitOk : Nat → Bool) : Nat → List Source → Source → Bool
  | _, [], _ => false
  | i, c :: rest, s =>
    (c.pending && commitOk i && (s.id == c.id)) || reapDeletes commitOk (i + 1) rest s

/-- Number of errors the reaper reports on a candidate list starting at
index `i`: one per still-pending candidate whose commit fails. -/
def reapErrors (commitOk : Nat → Bool) : Nat → List Source → Nat
  | _, [] => 0
  | i, c :: rest =>
    (if c.pending && !commitOk i then 1 else 0) + reapErrors commitOk (i + 1) rest

/-- One state transition of the store: any of the modeled operations, with
arbitrary request data and collaborator outcomes. -/
inductive Step : Store → Store → Prop where
  | create (hashCodename : String → String) (displayId : String) (ctorOk : Bool)
      (sess : Session) (tab_id : String) (σ : Store) :
      Step σ (create hashCodename displayId ctorOk σ sess tab_id).1
  | submit (allow_document_uploads : Bool) (sid : Nat) (msg : String)
      (files_fh : Option FileUpload) (now : Nat) (σ : Store) :
      Step σ (storeSubmit σ allow_document_uploads sid msg files_fh now)
  | lookup (filesystem_id : String) (σ : Store) :
      Step σ (storeLookup σ filesystem_id)
  | deleteReply (sid : Nat) (reply_filename : String) (σ : Store) :
      Step σ (delete σ sid reply_filename).1
  | batchDelete (sid : Nat) (σ : Store) :
      Step σ (batch_delete σ sid)
  | reap (keep_most_recent : Nat) (commitOk : Nat → Bool) (σ : Store) :
      Step σ (remove_pending_sources keep_most_recent commitOk σ).store

/-- Reachability through the modeled operations. -/
def Reach : Store → Store → Prop :=
  Relation.ReflTransGen Step

/-- The data-model invariant: `pending` iff no interaction yet, primary keys
are distinct, and `next_id` is fresh. -/
def Inv (σ : Store) : Prop :=
  (∀ s ∈ σ.sources, s.pending = decide (s.interaction_count = 0)) ∧
  (σ.sources.map Source.id).Nodup ∧
  (∀ s ∈ σ.sources, s.id < σ.next_id)

/-- Every reply row with primary key `i` carries the soft-deletion mark. -/
def deletedStays (i : Nat) (σ : Store) : Prop :=
  ∀ r ∈ σ.replies, r.id = i → r.deleted_by_source = true

theorem submit_some_source (allow : Bool) (src : Source) (msg : String)
    (files_fh : Option FileUpload) (now : Nat) (out : SubmitOk)
    (h : submit allow src msg files_fh now = some out) :
    out.source.id = src.id ∧ out.source.pending = false ∧
    src.interaction_count < out.source.interaction_count := by
  by_cases hm : msg = "" <;> cases hf : files_fh <;> cases allow <;> subst hf <;>
    simp [submit, hm] at h <;> subst h <;> (simp [hm]; try omega)

theorem reapLoop_replies (commitOk : Nat → Bool) (i : Nat) (σ : Store)
    (cands : List Source) :
    (reapLoop commitOk i σ cands).1.replies = σ.replies := by
  induction cands generalizing i σ with
  | nil => rfl
  | cons c rest ih =>
    by_cases hc : c.pending <;> by_cases hco : commitOk i <;>
      simp [reapLoop, delete_source_key_pair, delete_pending_source, hc, hco, ih]

theorem reapLoop_submissions (commitOk : Nat → Bool) (i : Nat) (σ : Store)
    (cands : List Source) :
    (reapLoop commitOk i σ cands).1.submissions = σ.submissions := by
  induction cands generalizing i σ with
  | nil => rfl
  | cons c rest ih =>
    by_cases hc : c.pending <;> by_cases hco : commitOk i <;>
      simp [reapLoop, delete_source_key_pair, delete_pending_source, hc, hco, ih]

theorem reapLoop_next_id (commitOk : Nat → Bool) (i : Nat) (σ : Store)
    (cands : List Source) :
    (reapLoop commitOk i σ cands).1.next_id = σ.next_id := by
  induction cands generalizing i σ with
  | nil => rfl
  | cons c rest ih =>
    by_cases hc : c.pending <;> by_cases hco : commitOk i <;>
      simp [reapLoop, delete_source_key_pair, delete_pending_source, hc, hco, ih]

theorem reapLoop_sources (commitOk : Nat → Bool) (i : Nat) (σ : Store)
    (cands : List Source) :
    (reapLoop commitOk i σ cands).1.sources =
      σ.sources.filter (fun s => !reapDeletes commitOk i cands s) := by
  induction cands generalizing i σ with
  | nil => simp [reapLoop, reapDeletes]
  | cons c rest ih =>
    by_cases hc : c.pending <;> by_cases hco : commitOk i
    · rw [reapLoop]
      simp only [delete_source_key_pair, delete_pending_source, hc, hco, if_true]
      rw [ih, List.filter_filter]
      apply List.filter_congr
      intro s _
      simp [reapDeletes, hc, hco, Bool.not_or, Bool.and_comm, bne]
    · rw [reapLoop]
      simp only [delete_source_key_pair, delete_pending_source, hc, hco, if_true, if_false]
      rw [ih]
      apply List.filter_congr
      intro s _
      simp [reapDeletes, hc, hco]
    · rw [reapLoop]
      simp only [delete_source_key_pair, delete_pending_source, hc, hco, if_true, if_false]
      rw [ih]
      apply List.filter_congr
      intro s _
      simp [reapDeletes, hc, hco]
    · rw [reapLoop]
      simp only [delete_source_key_pair, delete_pending_source, hc, hco, if_true, if_false]
      rw [ih]
      apply List.filter_congr
      intro s _
      simp [reapDeletes, hc, hco]

theorem reapLoop_errors (commitOk : Nat → Bool) (i : Nat) (σ : Store)
    (cands : List Source) :
    (reapLoop commitOk i σ cands).2 = reapErrors commitOk i cands := by
  induction cands generalizing i σ with
  | nil => rfl
  | cons c rest ih =>
    by_cases hc : c.pending <;> by_cases hco : commitOk i <;>
      simp [reapLoop, reapErrors, delete_source_key_pair, delete_pending_source, hc, hco, ih]

theorem reapDeletes_mem (commitOk : Nat → Bool) (i : Nat) (cands : List Source)
    (s : Source) (h : reapDeletes commitOk i cands s = true) :
    ∃ c ∈ cands, c.pending = true ∧ s.id = c.id := by
  induction cands generalizing i with
  | nil => simp [reapDeletes] at h
  | cons c rest ih =>
    rw [reapDeletes, Bool.or_eq_true] at h
    rcases h with h | h
    · refine ⟨c, List.mem_cons_self c rest, ?_, ?_⟩
      · have := (Bool.and_eq_true _ _).mp h
        exact ((Bool.and_eq_true _ _).mp this.1).1
      · have := (Bool.and_eq_true _ _).mp h
        simpa using this.2
    · obtain ⟨d, hd, hdp, hds⟩ := ih (i + 1) h
      exact ⟨d, List.mem_cons_of_mem c hd, hdp, hds⟩

theorem create_store_cases (hashCodename : String → String) (displayId : String)
    (ctorOk : Bool) (σ : Store) (sess : Session) (tab_id : String) :
    (create hashCodename displayId ctorOk σ sess tab_id).1 = σ ∨
    ∃ fsid, (create hashCodename displayId ctorOk σ sess tab_id).1 =
        { σ with sources := σ.sources ++ [newSource σ.next_id fsid displayId],
                 next_id := σ.next_id + 1 } := by
  unfold create
  split
  · left; rfl
  · split
    · left; rfl
    · split
      · left; rfl
      · dsimp only
        split
        · left; rfl
        · right; exact ⟨_, rfl⟩

theorem inv_of_same (σ σ' : Store) (hs : σ'.sources = σ.sources)
    (hn : σ'.next_id = σ.next_id) (h : Inv σ) : Inv σ' := by
  obtain ⟨h1, h2, h3⟩ := h
  refine ⟨?_, ?_, ?_⟩
  · rw [hs]; exact h1
  · rw [hs]; exact h2
  · rw [hs, hn]; exact h3

theorem inv_create (hashCodename : String → String) (displayId : String)
    (ctorOk : Bool) (σ : Store) (sess : Session) (tab_id : String) (h : Inv σ) :
    Inv (create hashCodename displayId ctorOk σ sess tab_id).1 := by
  rcases create_store_cases hashCodename displayId ctorOk σ sess tab_id with hc | ⟨fsid, hc⟩
  · rw [hc]; exact h
  · rw [hc]
    obtain ⟨h1, h2, h3⟩ := h
    refine ⟨?_, ?_, ?_⟩
    · intro s hs
      rcases List.mem_append.mp hs with hs | hs
      · exact h1 s hs
      · simp only [List.mem_singleton] at hs
        subst hs
        rfl
    · rw [List.map_append]
      refine List.nodup_append.mpr ⟨h2, List.nodup_singleton _, ?_⟩
      intro a ha hb
      simp only [List.map_cons, List.map_nil, List.mem_singleton, newSource] at hb
      rcases List.mem_map.mp ha with ⟨s, hs, rfl⟩
      have := h3 s hs
      rw [hb] at this
      exact Nat.lt_irrefl _ this
    · intro s hs
      rcases List.mem_append.mp hs with hs | hs
      · exact Nat.lt_trans (h3 s hs) (Nat.lt_succ_self _)
      · simp only [List.mem_singleton] at hs
        subst hs
        exact Nat.lt_succ_self _

theorem inv_storeSubmit (σ : Store) (allow : Bool) (sid : Nat) (msg : String)
    (files_fh : Option FileUpload) (now : Nat) (h : Inv σ) :
    Inv (storeSubmit σ allow sid msg files_fh now) := by
  unfold storeSubmit
  split
  · exact h
  · next src hfind =>
    split
    · exact h
    · next out hsub =>
      obtain ⟨hid, hpend, hlt⟩ :=
        submit_some_source allow src msg files_fh now out hsub
      obtain ⟨h1, h2, h3⟩ := h
      have hids : (σ.sources.map (fun s => if s.id == src.id then out.source else s)).map
          Source.id = σ.sources.map Source.id := by
        rw [List.map_map]
        apply List.map_congr_left
        intro s _
        by_cases hss : (s.id == src.id) = true
        · simp only [Function.comp, hss, if_true, hid]
          exact ((Nat.beq_eq_true_eq _ _).mp hss).symm
        · simp [Function.comp, hss]
      refine ⟨?_, ?_, ?_⟩
      · intro s' hs'
        rcases List.mem_map.mp hs' with ⟨s, hs, rfl⟩
        by_cases hss : (s.id == src.id) = true
        · simp only [hss, if_true]
          rw [hpend]
          have : out.source.interaction_count ≠ 0 := by omega
          simp [this]
        · simp only [hss, if_false]
          exact h1 s hs
      · rw [hids]; exact h2
      · intro s' hs'
        rcases List.mem_map.mp hs' with ⟨s, hs, rfl⟩
        by_cases hss : (s.id == src.id) = true
        · simp only [hss, if_true, hid]
          have heq : s.id = src.id := by simpa using hss
          rw [← heq]
          exact h3 s hs
        · simp only [hss, if_false]
          exact h3 s hs

theorem delete_frame (σ : Store) (sid : Nat) (reply_filename : String) :
    (delete σ sid reply_filename).1.sources = σ.sources ∧
    (delete σ sid reply_filename).1.next_id = σ.next_id := by
  unfold delete
  split <;> exact ⟨rfl, rfl⟩

theorem batch_delete_frame (σ : Store) (sid : Nat) :
    (batch_delete σ sid).sources = σ.sources ∧
    (batch_delete σ sid).next_id = σ.next_id := by
  unfold batch_delete
  dsimp only
  split <;> exact ⟨rfl, rfl⟩

theorem storeLookup_frame (σ : Store) (filesystem_id : String) :
    (storeLookup σ filesystem_id).sources = σ.sources ∧
    (storeLookup σ filesystem_id).replies = σ.replies ∧
    (storeLookup σ filesystem_id).next_id = σ.next_id := by
  unfold storeLookup
  split <;> exact ⟨rfl, rfl, rfl⟩

theorem inv_reap (keep_most_recent : Nat) (commitOk : Nat → Bool) (σ : Store)
    (h : Inv σ) :
    Inv (remove_pending_sources keep_most_recent commitOk σ).store := by
  obtain ⟨h1, h2, h3⟩ := h
  have hsrc : (remove_pending_sources keep_most_recent commitOk σ).store.sources =
      σ.sources.filter
        (fun s => !reapDeletes commitOk 0 (find_pending_sources keep_most_recent σ) s) := by
    unfold remove_pending_sources
    exact reapLoop_sources commitOk 0 σ _
  have hnext : (remove_pending_sources keep_most_recent commitOk σ).store.next_id =
      σ.next_id := by
    unfold remove_pending_sources
    exact reapLoop_next_id commitOk 0 σ _
  refine ⟨?_, ?_, ?_⟩
  · rw [hsrc]
    intro s hs
    exact h1 s (List.mem_filter.mp hs).1
  · rw [hsrc]
    exact List.Nodup.sublist (List.Sublist.map Source.id (List.filter_sublist _)) h2
  · rw [hsrc, hnext]
    intro s hs
    exact h3 s (List.mem_filter.mp hs).1

theorem inv_step (σ σ' : Store) (h : Inv σ) (hs : Step σ σ') : Inv σ' := by
  cases hs with
  | create hashCodename displayId ctorOk sess tab_id =>
    exact inv_create hashCodename displayId ctorOk σ sess tab_id h
  | submit allow_document_uploads sid msg files_fh now =>
    exact inv_storeSubmit σ allow_document_uploads sid msg files_fh now h
  | lookup filesystem_id =>
    exact inv_of_same σ _ (storeLookup_frame σ filesystem_id).1
      (storeLookup_frame σ filesystem_id).2.2 h
  | deleteReply sid reply_filename =>
    exact inv_of_same σ _ (delete_frame σ sid reply_filename).1
      (delete_frame σ sid reply_filename).2 h
  | batchDelete sid =>
    exact inv_of_same σ _ (batch_delete_frame σ sid).1 (batch_delete_frame σ sid).2 h
  | reap keep_most_recent commitOk =>
    exact inv_reap keep_most_recent commitOk σ h

theorem inv_reach (σ σ' : Store) (h : Inv σ) (hr : Reach σ σ') : Inv σ' := by
  unfold Reach at hr
  induction hr with
  | refl => exact h
  | tail _ hstep ih => exact inv_step _ _ ih hstep

theorem mem_find_pending (keep_most_recent : Nat) (σ : Store) (s : Source)
    (h : s ∈ find_pending_sources keep_most_recent σ) :
    s ∈ σ.sources ∧ s.pending = true := by
  unfold find_pending_sources at h
  have h1 := List.mem_of_mem_drop h
  have h2 := (List.perm_insertionSort (fun a b : Source => b.id ≤ a.id) _).mem_iff.mp h1
  exact ⟨(List.mem_filter.mp h2).1, (List.mem_filter.mp h2).2⟩


theorem markDeleted_id (reply_filename : String) (sid : Nat) (r : Reply) :
    (markDeleted reply_filename sid r).id = r.id := by
  unfold markDeleted
  split <;> rfl

theorem markDeleted_flag_mono (reply_filename : String) (sid : Nat) (r : Reply)
    (h : r.deleted_by_source = true) :
    (markDeleted reply_filename sid r).deleted_by_source = true := by
  unfold markDeleted
  split
  · rfl
  · exact h

theorem create_replies (hashCodename : String → String) (displayId : String)
    (ctorOk : Bool) (σ : Store) (sess : Session) (tab_id : String) :
    (create hashCodename displayId ctorOk σ sess tab_id).1.replies = σ.replies := by
  rcases create_store_cases hashCodename displayId ctorOk σ sess tab_id with hc | ⟨fsid, hc⟩ <;>
    rw [hc]

theorem storeSubmit_replies (σ : Store) (allow : Bool) (sid : Nat) (msg : String)
    (files_fh : Option FileUpload) (now : Nat) :
    (storeSubmit σ allow sid msg files_fh now).replies = σ.replies := by
  unfold storeSubmit
  split
  · rfl
  · split <;> rfl

theorem deletedStays_of_replies_eq (i : Nat) (σ σ' : Store)
    (hrep : σ'.replies = σ.replies) (h : deletedStays i σ) : deletedStays i σ' := by
  intro r hmem
  rw [hrep] at hmem
  exact h r hmem

theorem deletedStays_delete (i sid : Nat) (reply_filename : String) (σ : Store)
    (h : deletedStays i σ) : deletedStays i (delete σ sid reply_filename).1 := by
  unfold delete
  split
  · intro r' hr' hid
    simp only at hr'
    rcases List.mem_map.mp hr' with ⟨x, hx, rfl⟩
    rw [markDeleted_id] at hid
    exact markDeleted_flag_mono reply_filename sid x (h x hx hid)
  · exact h

theorem deletedStays_batch (i sid : Nat) (σ : Store) (h : deletedStays i σ) :
    deletedStays i (batch_delete σ sid) := by
  unfold batch_delete
  dsimp only
  split
  · exact h
  · intro r' hr' hid
    simp only at hr'
    rcases List.mem_map.mp hr' with ⟨x, hx, rfl⟩
    by_cases hc : (x.source_id == sid && x.deleted_by_source == false) = true
    · simp only [hc, if_true] at hid ⊢
    · simp only [hc, if_false] at hid ⊢
      exact h x hx hid

theorem deletedStays_step (i : Nat) (σ σ' : Store) (h : deletedStays i σ)
    (hs : Step σ σ') : deletedStays i σ' := by
  cases hs with
  | create hashCodename displayId ctorOk sess tab_id =>
    exact deletedStays_of_replies_eq i σ _
      (create_replies hashCodename displayId ctorOk σ sess tab_id) h
  | submit allow_document_uploads sid msg files_fh now =>
    exact deletedStays_of_replies_eq i σ _
      (storeSubmit_replies σ allow_document_uploads sid msg files_fh now) h
  | lookup filesystem_id =>
    exact deletedStays_of_replies_eq i σ _ (storeLookup_frame σ filesystem_id).2.1 h
  | deleteReply sid reply_filename =>
    exact deletedStays_delete i sid reply_filename σ h
  | batchDelete sid =>
    exact deletedStays_batch i sid σ h
  | reap keep_most_recent commitOk =>
    exact deletedStays_of_replies_eq i σ _ (reapLoop_replies commitOk 0 σ _) h

theorem deletedStays_reach (i : Nat) (σ σ' : Store) (h : deletedStays i σ)
    (hr : Reach σ σ') : deletedStays i σ' := by
  unfold Reach at hr
  induction hr with
  | refl => exact h
  | tail _ hstep ih => exact deletedStays_step i _ _ ih hstep

theorem find?_set_self (k v : String) (m : List (String × String)) :
    List.find? (fun p => p.1 == k) (m.map (fun p => if p.1 == k then (k, v) else p)) =
      if m.any (fun p => p.1 == k) then some (k, v) else none := by
  induction m with
  | nil => rfl
  | cons p rest ih =>
    by_cases hp : p.1 = k
    · have hb : (p.1 == k) = true := by simp [hp]
      have hf : (if (p.1 == k) = true then (k, v) else p) = (k, v) := by simp [hp]
      rw [List.map_cons, hf, List.find?_cons_of_pos _ (by simp), List.any_cons, hb]
      simp
    · have hb : (p.1 == k) = false := by simp [hp]
      have hf : (if (p.1 == k) = true then (k, v) else p) = p := by simp [hp]
      rw [List.map_cons, hf, List.find?_cons_of_neg _ (by simp [hp]), ih, List.any_cons, hb,
        Bool.false_or]

theorem find?_set_other (k v k' : String) (h : k' ≠ k) (m : List (String × String)) :
    List.find? (fun p => p.1 == k') (m.map (fun p => if p.1 == k then (k, v) else p)) =
      List.find? (fun p => p.1 == k') m := by
  have hkk : ¬(k = k') := fun hh => h hh.symm
  induction m with
  | nil => rfl
  | cons p rest ih =>
    by_cases hp : p.1 = k
    · have hf : (if (p.1 == k) = true then (k, v) else p) = (k, v) := by simp [hp]
      rw [List.map_cons, hf,
        List.find?_cons_of_neg _ (by simp [hkk]),
        List.find?_cons_of_neg _ (by simp [hp, hkk]), ih]
    · have hf : (if (p.1 == k) = true then (k, v) else p) = p := by simp [hp]
      by_cases hp' : p.1 = k'
      · rw [List.map_cons, hf, List.find?_cons_of_pos _ (by simp [hp']),
          List.find?_cons_of_pos _ (by simp [hp'])]
      · rw [List.map_cons, hf, List.find?_cons_of_neg _ (by simp [hp']),
          List.find?_cons_of_neg _ (by simp [hp']), ih]

theorem dictGet_dictSet_self (m : List (String × String)) (k v : String) :
    dictGet (dictSet m k v) k = some v := by
  unfold dictSet
  split
  · next hany =>
    unfold dictGet
    rw [find?_set_self, if_pos hany]
    rfl
  · next hany =>
    unfold dictGet
    have hnone : List.find? (fun p => p.1 == k) m = none := by
      rw [List.find?_eq_none]
      intro x hx
      by_cases hxk : x.1 == k
      · exact absurd (List.any_eq_true.mpr ⟨x, hx, hxk⟩) hany
      · exact hxk
    rw [List.find?_append, hnone]
    simp [List.find?_cons]

theorem dictGet_dictSet_other (m : List (String × String)) (k v k' : String)
    (h : k' ≠ k) :
    dictGet (dictSet m k v) k' = dictGet m k' := by
  have hkk : ¬(k = k') := fun hh => h hh.symm
  unfold dictSet
  split
  · unfold dictGet
    rw [find?_set_other k v k' h]
  · unfold dictGet
    have hlast : List.find? (fun p => p.1 == k') [(k, v)] = none := by
      rw [List.find?_cons_of_neg _ (by simp [hkk])]
      rfl
    rw [List.find?_append, hlast]
    simp

/-- C1: for every successful call to `submit`, `interaction_count` after the
call equals its value before the call plus the number of present content
units (1 if only a message or only a file is present, 2 if both), the units
are processed in the fixed order message then file, each unit's filename is
assigned using the post-increment counter value, and the final
`interaction_count` equals the maximum sequence number encoded in any
filename created during the call. -/
theorem submit_counts_and_filenames (allow : Bool) (src : Source) (msg : String)
    (files_fh : Option FileUpload) (now : Nat) (out : SubmitOk)
    (h : submit allow src msg files_fh now = some out) :
    out.source.interaction_count = src.interaction_count + numUnits allow msg files_fh ∧
    1 ≤ numUnits allow msg files_fh ∧
    out.fnames =
      (if msg ≠ "" then [⟨src.interaction_count + 1, SubKind.msg, src.journalist_filename⟩]
       else []) ++
      (if allow ∧ files_fh ≠ none then
        [⟨src.interaction_count + numUnits allow msg files_fh, SubKind.doc,
          src.journalist_filename⟩]
       else []) ∧
    maxSeq out.fnames = out.source.interaction_count := by
  by_cases hm : msg = "" <;> cases hf : files_fh <;> cases allow <;>
    subst hf <;>
    simp [submit, hm, numUnits, maxSeq, save_message_submission, save_file_submission] at h ⊢ <;>
    subst h <;>
    simp [maxSeq, hm, Nat.max_comm]

theorem submit_counts_and_filenames_witness :
    (⟨⟨1, "fs1", "jf", false, 2, 5⟩,
      [⟨1, SubKind.msg, "jf"⟩, ⟨2, SubKind.doc, "jf"⟩],
      FlashKind.firstSubmission⟩ : SubmitOk).source.interaction_count =
      (⟨1, "fs1", "jf", true, 0, 0⟩ : Source).interaction_count +
        numUnits true "hello" (some ⟨"a.txt", "data"⟩) :=
  (submit_counts_and_filenames true ⟨1, "fs1", "jf", true, 0, 0⟩ "hello"
    (some ⟨"a.txt", "data"⟩) 5
    ⟨⟨1, "fs1", "jf", false, 2, 5⟩,
      [⟨1, SubKind.msg, "jf"⟩, ⟨2, SubKind.doc, "jf"⟩],
      FlashKind.firstSubmission⟩
    (by decide)).1

/-- C2: in every store reachable from a state satisfying the data-model
invariant, `pending = (interaction_count = 0)` holds for every source row
(account creation inserts `newSource` with `pending = true` and
`interaction_count = 0`), the reaper's query selects only pending sources, a
source with `interaction_count > 0` survives every reaper run, and any
source a reaper run removes had `pending = true`. -/
theorem pending_iff_untouched_and_reaper_safe (σ0 σ : Store)
    (h0 : Inv σ0) (hr : Reach σ0 σ) :
    (∀ s ∈ σ.sources, s.pending = decide (s.interaction_count = 0)) ∧
    (∀ id filesystem_id displayId,
      (newSource id filesystem_id displayId).pending = true ∧
      (newSource id filesystem_id displayId).interaction_count = 0) ∧
    (∀ keep_most_recent, ∀ s ∈ find_pending_sources keep_most_recent σ,
      s.pending = true) ∧
    (∀ keep_most_recent commitOk, ∀ s ∈ σ.sources, 0 < s.interaction_count →
      s ∈ (remove_pending_sources keep_most_recent commitOk σ).store.sources) ∧
    (∀ keep_most_recent commitOk, ∀ s ∈ σ.sources,
      s ∉ (remove_pending_sources keep_most_recent commitOk σ).store.sources →
      s.pending = true) := by
  obtain ⟨h1, h2, h3⟩ := inv_reach σ0 σ h0 hr
  have hsrc : ∀ keep_most_recent commitOk,
      (remove_pending_sources keep_most_recent commitOk σ).store.sources =
      σ.sources.filter
        (fun s => !reapDeletes commitOk 0 (find_pending_sources keep_most_recent σ) s) := by
    intro keep commitOk
    unfold remove_pending_sources
    exact reapLoop_sources commitOk 0 σ _
  have hdelpend : ∀ keep commitOk, ∀ s ∈ σ.sources,
      reapDeletes commitOk 0 (find_pending_sources keep σ) s = true →
      s.pending = true := by
    intro keep commitOk s hs hcon
    obtain ⟨c, hc1, hc2, hc3⟩ := reapDeletes_mem commitOk 0 _ s hcon
    have hcσ := (mem_find_pending keep σ c hc1).1
    have hcs : c = s := List.inj_on_of_nodup_map h2 hcσ hs hc3.symm
    rw [← hcs]
    exact hc2
  refine ⟨h1, fun id fsid dId => ⟨rfl, rfl⟩,
    fun keep s hs => (mem_find_pending keep σ s hs).2, ?_, ?_⟩
  · intro keep commitOk s hs hcount
    rw [hsrc keep commitOk]
    cases hx : reapDeletes commitOk 0 (find_pending_sources keep σ) s with
    | false => exact List.mem_filter.mpr ⟨hs, by simp [hx]⟩
    | true =>
      exfalso
      have hpend := hdelpend keep commitOk s hs hx
      have hiff := h1 s hs
      rw [hpend] at hiff
      have hzero : s.interaction_count = 0 := of_decide_eq_true hiff.symm
      omega
  · intro keep commitOk s hs hnot
    rw [hsrc keep commitOk] at hnot
    by_cases hcon : reapDeletes commitOk 0 (find_pending_sources keep σ) s = true
    · exact hdelpend keep commitOk s hs hcon
    · exact absurd (List.mem_filter.mpr ⟨hs, by simp [hcon]⟩) hnot

theorem pending_iff_untouched_and_reaper_safe_witness :
    (⟨1, "fs1", "jf", false, 2, 7⟩ : Source) ∈
      (remove_pending_sources 0 (fun _ => true)
        ⟨[⟨1, "fs1", "jf", false, 2, 7⟩], [], [], [], 2⟩).store.sources :=
  (pending_iff_untouched_and_reaper_safe
    ⟨[⟨1, "fs1", "jf", false, 2, 7⟩], [], [], [], 2⟩
    ⟨[⟨1, "fs1", "jf", false, 2, 7⟩], [], [], [], 2⟩
    ⟨by decide, by decide, by decide⟩
    Relation.ReflTransGen.refl).2.2.2.1 0 (fun _ => true)
    ⟨1, "fs1", "jf", false, 2, 7⟩ (by decide) (by decide)

/-- C3: for every `keep_most_recent` value, every pattern of per-candidate
commit outcomes and every store, `remove_pending_sources` reports (in both
the "Found" and "Deleted" lines) the number of candidates considered — the
pending sources minus the `keep_most_recent` most recent — and its return
value, the process exit status, is 0. -/
theorem reap_reports_candidates_and_exits_zero (keep_most_recent : Nat)
    (commitOk : Nat → Bool) (σ : Store) :
    (remove_pending_sources keep_most_recent commitOk σ).found_printed =
      (find_pending_sources keep_most_recent σ).length ∧
    (remove_pending_sources keep_most_recent commitOk σ).deleted_printed =
      (find_pending_sources keep_most_recent σ).length ∧
    (find_pending_sources keep_most_recent σ).length =
      (σ.sources.filter (fun s => s.pending)).length - keep_most_recent ∧
    (remove_pending_sources keep_most_recent commitOk σ).exit_code = 0 := by
  refine ⟨rfl, rfl, ?_, rfl⟩
  simp [find_pending_sources, List.length_insertionSort]

/-- C4: when `create` hits the unique-constraint violation (the derived
`filesystem_id` already exists), the store is unchanged (rollback), both the
`codename` session entry and the `logged_in` flag are removed, the operation
ends in the fatal `duplicate` outcome, and the caller is not logged in. -/
theorem create_duplicate_clears_session (hashCodename : String → String)
    (displayId : String) (σ : Store) (sess : Session) (tab_id codename : String)
    (hin : sess.logged_in.getD false = false)
    (hres : resolve sess tab_id = some codename)
    (hdup : σ.sources.any (fun s => s.filesystem_id == hashCodename codename) = true) :
    create hashCodename displayId true σ sess tab_id =
      (σ, { sess with codenames := none, codename := none, logged_in := none },
        CreateResult.duplicate) ∧
    (create hashCodename displayId true σ sess tab_id).2.1.logged_in.getD false = false := by
  simp [create, hin, hres, hdup]

theorem create_duplicate_clears_session_witness :
    (create (fun c => c) "d0" true
      ⟨[⟨0, "cn0", "d0", true, 0, 0⟩], [], [], [], 1⟩
      ⟨some [("t1", "cn0")], none, none, none, none, []⟩ "t1").2.1.logged_in.getD false =
      false :=
  (create_duplicate_clears_session (fun c => c) "d0"
    ⟨[⟨0, "cn0", "d0", true, 0, 0⟩], [], [], [], 1⟩
    ⟨some [("t1", "cn0")], none, none, none, none, []⟩ "t1" "cn0"
    rfl (by decide) (by decide)).2

/-- C5: for two distinct tab ids bound in the same session, the second
`generate` does not overwrite or evict the first binding: resolving each tab
id returns exactly the codename bound to it, and when the two codenames
differ the two resolutions differ. -/
theorem generate_tab_bindings_independent (sess : Session) (tabA tabB cA cB : String)
    (hAB : tabA ≠ tabB) (hin : sess.logged_in.getD false = false) :
    resolve (generate (generate sess tabA cA) tabB cB) tabA = some cA ∧
    resolve (generate (generate sess tabA cA) tabB cB) tabB = some cB ∧
    (cA ≠ cB →
      resolve (generate (generate sess tabA cA) tabB cB) tabA ≠
        resolve (generate (generate sess tabA cA) tabB cB) tabB) := by
  have h1 : generate sess tabA cA =
      { sess with codenames := some (dictSet (sess.codenames.getD []) tabA cA),
                  new_user := some true } := by
    simp [generate, hin]
  have h2 : resolve (generate (generate sess tabA cA) tabB cB) tabA = some cA := by
    rw [h1]
    simp only [generate, hin, resolve, Option.getD_some]
    simp only [Bool.false_eq_true, if_false, Option.getD_some]
    rw [dictGet_dictSet_other _ _ _ _ hAB, dictGet_dictSet_self]
  have h3 : resolve (generate (generate sess tabA cA) tabB cB) tabB = some cB := by
    rw [h1]
    simp only [generate, hin, resolve, Option.getD_some]
    simp only [Bool.false_eq_true, if_false, Option.getD_some]
    rw [dictGet_dictSet_self]
  refine ⟨h2, h3, fun hc => ?_⟩
  rw [h2, h3]
  simp [hc]

theorem generate_tab_bindings_independent_witness :
    resolve (generate (generate ⟨none, none, none, none, none, []⟩ "tA" "ca") "tB" "cb")
      "tA" = some "ca" :=
  (generate_tab_bindings_independent ⟨none, none, none, none, none, []⟩ "tA" "tB"
    "ca" "cb" (by decide) rfl).1

/-- C6: a reply marked `deleted_by_source` in some store never appears in the
`lookup` reply listing of any store reachable from it, for any source id and
any read/decrypt and modification-time behavior of the collaborators. -/
theorem deleted_reply_never_listed (σ σ' : Store) (i sid : Nat)
    (readable : Reply → Bool) (mtime : Reply → Nat)
    (hdel : ∀ r ∈ σ.replies, r.id = i → r.deleted_by_source = true)
    (hr : Reach σ σ') :
    (lookup σ' sid readable mtime).all (fun r => r.id != i) = true := by
  have h' : deletedStays i σ' := deletedStays_reach i σ σ' hdel hr
  rw [List.all_eq_true]
  intro r hmem
  unfold lookup at hmem
  dsimp only at hmem
  have hmem2 := (List.perm_insertionSort (fun a b : Reply => mtime b ≤ mtime a) _).mem_iff.mp hmem
  have hmem3 := (List.mem_filter.mp hmem2).1
  have hflag : (r.source_id == sid && r.deleted_by_source == false) = true :=
    (List.mem_filter.mp hmem3).2
  have hrep : r ∈ σ'.replies := (List.mem_filter.mp hmem3).1
  have hfalse : r.deleted_by_source = false := by
    have := (Bool.and_eq_true _ _).mp hflag
    simpa using this.2
  simp only [bne]
  by_cases hq : r.id = i
  · rw [h' r hrep hq] at hfalse
    cases hfalse
  · simp [hq]

theorem deleted_reply_never_listed_witness :
    (lookup ⟨[], [], [⟨7, 1, "r1", true⟩], [], 0⟩ 1 (fun _ => true) (fun _ => 0)).all
      (fun r => r.id != 7) = true :=
  deleted_reply_never_listed ⟨[], [], [⟨7, 1, "r1", true⟩], [], 0⟩
    ⟨[], [], [⟨7, 1, "r1", true⟩], [], 0⟩ 7 1 (fun _ => true) (fun _ => 0)
    (by decide) Relation.ReflTransGen.refl

/-- C7: in a reaper run, a still-pending candidate whose delete/commit fails
is kept (its transaction rolled back) and reported as exactly one error,
while every still-pending candidate whose commit succeeds is removed —
independent of the position of failures, so the loop never aborts early —
and the run's effect on source rows and its error reporting are unchanged by
presence or absence of key material (a missing key pair is swallowed). -/
theorem reap_failures_isolated_and_reported (keep_most_recent : Nat)
    (commitOk : Nat → Bool) (σ : Store) (ks ks' : List String) :
    (remove_pending_sources keep_most_recent commitOk σ).store.sources =
      σ.sources.filter
        (fun s => !reapDeletes commitOk 0 (find_pending_sources keep_most_recent σ) s) ∧
    (remove_pending_sources keep_most_recent commitOk σ).errors =
      reapErrors commitOk 0 (find_pending_sources keep_most_recent σ) ∧
    (remove_pending_sources keep_most_recent commitOk { σ with keys := ks }).store.sources =
      (remove_pending_sources keep_most_recent commitOk { σ with keys := ks' }).store.sources ∧
    (remove_pending_sources keep_most_recent commitOk { σ with keys := ks }).errors =
      (remove_pending_sources keep_most_recent commitOk { σ with keys := ks' }).errors := by
  have hs : ∀ σ0 : Store,
      (remove_pending_sources keep_most_recent commitOk σ0).store.sources =
      σ0.sources.filter
        (fun s => !reapDeletes commitOk 0 (find_pending_sources keep_most_recent σ0) s) := by
    intro σ0
    unfold remove_pending_sources
    exact reapLoop_sources commitOk 0 σ0 _
  have he : ∀ σ0 : Store,
      (remove_pending_sources keep_most_recent commitOk σ0).errors =
      reapErrors commitOk 0 (find_pending_sources keep_most_recent σ0) := by
    intro σ0
    unfold remove_pending_sources
    exact reapLoop_errors commitOk 0 σ0 _
  refine ⟨hs σ, he σ, ?_, ?_⟩
  · rw [hs, hs]
    rfl
  · rw [he, he]
    rfl

/-- C8: with the document-uploads policy flag disabled, `submit` with a
non-empty message and an attached file succeeds, ignores the file entirely
(one message filename, counter advanced by exactly 1, no error), and the
store commit records exactly one new `Submission` row, for the message. -/
theorem submit_no_uploads_ignores_file (σ : Store) (sid : Nat) (src : Source)
    (msg : String) (f : FileUpload) (now : Nat)
    (hfind : σ.sources.find? (fun s => s.id == sid) = some src)
    (hm : msg ≠ "") :
    submit false src msg (some f) now =
      some { source := { src with pending := false,
                                  interaction_count := src.interaction_count + 1,
                                  last_updated := now }
             fnames := [⟨src.interaction_count + 1, SubKind.msg, src.journalist_filename⟩]
             flashKind := if src.interaction_count = 0 then FlashKind.firstSubmission
                          else FlashKind.gotMessage } ∧
    (storeSubmit σ false sid msg (some f) now).submissions =
      σ.submissions ++
        [⟨src.id, ⟨src.interaction_count + 1, SubKind.msg, src.journalist_filename⟩⟩] := by
  constructor
  · simp [submit, hm, save_message_submission]
  · simp [storeSubmit, hfind, submit, hm, save_message_submission]

theorem submit_no_uploads_ignores_file_witness :
    (storeSubmit ⟨[⟨1, "fs", "jf", true, 0, 0⟩], [], [], [], 2⟩ false 1 "hello"
      (some ⟨"a.txt", "d"⟩) 9).submissions =
      [⟨1, ⟨1, SubKind.msg, "jf"⟩⟩] :=
  (submit_no_uploads_ignores_file ⟨[⟨1, "fs", "jf", true, 0, 0⟩], [], [], [], 2⟩ 1
    ⟨1, "fs", "jf", true, 0, 0⟩ "hello" ⟨"a.txt", "d"⟩ 9 (by decide) (by decide)).2

/-- C9: the per-reply `delete` view is idempotent: when the ownership query
matches exactly one reply, the call succeeds, a second identical call
succeeds again and changes nothing, and if the matched reply was already
soft-deleted the first call already changes nothing. -/
theorem delete_reply_idempotent (σ : Store) (sid : Nat) (reply_filename : String)
    (r : Reply)
    (hq : σ.replies.filter (fun x => x.filename == reply_filename && x.source_id == sid) = [r]) :
    (delete σ sid reply_filename).2 = true ∧
    delete (delete σ sid reply_filename).1 sid reply_filename =
      ((delete σ sid reply_filename).1, true) ∧
    (r.deleted_by_source = true → (delete σ sid reply_filename).1 = σ) := by
  have hdel1 : delete σ sid reply_filename =
      ({ σ with replies := σ.replies.map (markDeleted reply_filename sid) }, true) := by
    unfold delete
    rw [hq]
  have hpred : ∀ x : Reply,
      ((markDeleted reply_filename sid x).filename == reply_filename &&
        (markDeleted reply_filename sid x).source_id == sid) =
      (x.filename == reply_filename && x.source_id == sid) := by
    intro x; unfold markDeleted; split <;> simp_all
  have hcomp : ((fun x : Reply => x.filename == reply_filename && x.source_id == sid) ∘
      markDeleted reply_filename sid) =
      (fun x : Reply => x.filename == reply_filename && x.source_id == sid) := by
    funext x; exact hpred x
  have hfilter1 : (σ.replies.map (markDeleted reply_filename sid)).filter
      (fun x => x.filename == reply_filename && x.source_id == sid) =
      [markDeleted reply_filename sid r] := by
    rw [List.filter_map, hcomp, hq]
    rfl
  have hidem : (markDeleted reply_filename sid ∘ markDeleted reply_filename sid) =
      markDeleted reply_filename sid := by
    funext x
    by_cases hx : (x.filename == reply_filename && x.source_id == sid) = true <;>
      simp [markDeleted, hx, Function.comp]
  have hdel2 : delete (delete σ sid reply_filename).1 sid reply_filename =
      ((delete σ sid reply_filename).1, true) := by
    rw [hdel1]
    unfold delete
    rw [hfilter1]
    rw [List.map_map, hidem]
  have hself : r.deleted_by_source = true →
      σ.replies.map (markDeleted reply_filename sid) = σ.replies := by
    intro hflag
    have hall : ∀ x ∈ σ.replies, markDeleted reply_filename sid x = x := by
      intro x hx
      by_cases hpx : (x.filename == reply_filename && x.source_id == sid) = true
      · have hxr : x = r := by
          have hmem : x ∈ σ.replies.filter
              (fun y => y.filename == reply_filename && y.source_id == sid) :=
            List.mem_filter.mpr ⟨hx, hpx⟩
          rw [hq] at hmem
          simpa using hmem
        subst hxr
        unfold markDeleted
        rw [if_pos hpx]
        cases x
        simp_all
      · simp [markDeleted, hpx]
    rw [List.map_congr_left hall]
    simp
  refine ⟨by rw [hdel1], hdel2, fun hflag => ?_⟩
  rw [hdel1, hself hflag]

theorem delete_reply_idempotent_witness :
    (delete ⟨[], [], [⟨7, 1, "r1", true⟩], [], 0⟩ 1 "r1").1 =
      ⟨[], [], [⟨7, 1, "r1", true⟩], [], 0⟩ :=
  (delete_reply_idempotent ⟨[], [], [⟨7, 1, "r1", true⟩], [], 0⟩ 1 "r1"
    ⟨7, 1, "r1", true⟩ (by decide)).2.2 rfl

/-- C10: when the session is already logged in, `create` only flashes a
notice: the store is returned unchanged (no source row inserted), the
tab-to-codename mapping is untouched, and every session field other than the
flashed notifications keeps its value. -/
theorem create_already_logged_in_frame (hashCodename : String → String)
    (displayId : String) (ctorOk : Bool) (σ : Store) (sess : Session) (tab_id : String)
    (hin : sess.logged_in.getD false = true) :
    create hashCodename displayId ctorOk σ sess tab_id =
      (σ, { sess with flashes := sess.flashes ++ ["already-logged-in-verify-codename"] },
        CreateResult.alreadyLoggedIn) ∧
    (create hashCodename displayId ctorOk σ sess tab_id).1 = σ ∧
    (create hashCodename displayId ctorOk σ sess tab_id).2.1.codenames = sess.codenames ∧
    (create hashCodename displayId ctorOk σ sess tab_id).2.1.codename = sess.codename ∧
    (create hashCodename displayId ctorOk σ sess tab_id).2.1.logged_in = sess.logged_in ∧
    (create hashCodename displayId ctorOk σ sess tab_id).2.1.new_user = sess.new_user ∧
    (create hashCodename displayId ctorOk σ sess tab_id).2.1.token = sess.token := by
  simp [create, hin]

theorem create_already_logged_in_frame_witness :
    (create (fun c => c) "d" true ⟨[], [], [], [], 0⟩
      ⟨none, none, some true, none, none, []⟩ "t").1 = ⟨[], [], [], [], 0⟩ :=
  (create_already_logged_in_frame (fun c => c) "d" true ⟨[], [], [], [], 0⟩
    ⟨none, none, some true, none, none, []⟩ "t" rfl).2.1

end SecureDrop
